import Mathlib

/-!
Verification of the EEG emotion-mapping core
(`src/core/emotion/EEGEmotionMapper.ts`): a spectral band-power analyzer
(Hann window + direct DFT over the bins of five fixed frequency bands)
and a two-tier rule/score emotion classifier.  The TypeScript double
arithmetic is modelled by real arithmetic.
-/

open Finset Real

namespace EEG

/-- The five-band power profile (interface FrequencyBands). -/
structure FrequencyBands where
  delta : ℝ
  theta : ℝ
  alpha : ℝ
  beta : ℝ
  gamma : ℝ

/-- The four emotion labels (EmotionState.primary). -/
inductive EmotionLabel where
  | FOCUSED_HIGH
  | RELAXED_CALM
  | ANXIOUS_STRESSED
  | CURIOUS_INTERESTED
deriving DecidableEq, Repr

/-- The classifier output (interface EmotionState). -/
structure EmotionState where
  primary : EmotionLabel
  intensity : ℝ
  confidence : ℝ

/-- Hann weight at index n for a window of length N:
w = 0.5 * (1 - cos((2 * PI * n) / (N - 1))), as in the source. -/
noncomputable def hannWeight (N : ℕ) (n : ℕ) : ℝ :=
  0.5 * (1 - Real.cos (2 * Real.pi * n / ((N : ℝ) - 1)))

/-- windowed[n] = samples[n] * w (the Hann-windowed sample buffer). -/
noncomputable def windowedSample (samples : List ℝ) (n : ℕ) : ℝ :=
  samples.getD n 0 * hannWeight samples.length n

/-- kStart = Math.max(1, Math.floor(lowHz / fPerBin)) with fPerBin = sampleRate / N. -/
noncomputable def kStartOf (N : ℕ) (sampleRate lowHz : ℝ) : ℤ :=
  max 1 ⌊lowHz / (sampleRate / N)⌋

/-- kEnd = Math.min(Math.floor(highHz / fPerBin), Math.floor(N / 2)). -/
noncomputable def kEndOf (N : ℕ) (sampleRate highHz : ℝ) : ℤ :=
  min ⌊highHz / (sampleRate / N)⌋ ⌊(N : ℝ) / 2⌋

/-- re accumulator of the direct DFT at bin k:
re += windowed[n] * cos((2 * PI * k / N) * n). -/
noncomputable def dftRe (samples : List ℝ) (k : ℤ) : ℝ :=
  ∑ n ∈ Finset.range samples.length,
    windowedSample samples n * Real.cos (2 * Real.pi * k * n / samples.length)

/-- im accumulator of the direct DFT at bin k:
im -= windowed[n] * sin((2 * PI * k / N) * n). -/
noncomputable def dftIm (samples : List ℝ) (k : ℤ) : ℝ :=
  ∑ n ∈ Finset.range samples.length,
    -(windowedSample samples n * Real.sin (2 * Real.pi * k * n / samples.length))

/-- mag2 = (re * re + im * im) / (N * N), the per-bin normalized squared magnitude. -/
noncomputable def binMagSq (samples : List ℝ) (k : ℤ) : ℝ :=
  (dftRe samples k * dftRe samples k + dftIm samples k * dftIm samples k) /
    ((samples.length : ℝ) * samples.length)

/-- calculateBandPower from the source: degenerate-input guard, Hann window,
bin range selection, direct DFT power sum, average, square root. -/
noncomputable def calculateBandPower (samples : List ℝ) (sampleRate lowHz highHz : ℝ) : ℝ :=
  if samples.length = 0 ∨ sampleRate ≤ 0 ∨ highHz ≤ lowHz then 0
  else
    if kEndOf samples.length sampleRate highHz ≤ kStartOf samples.length sampleRate lowHz then 0
    else
      Real.sqrt
        ((∑ k ∈ Finset.Icc (kStartOf samples.length sampleRate lowHz)
            (kEndOf samples.length sampleRate highHz), binMagSq samples k) /
          max 1
            ((Finset.Icc (kStartOf samples.length sampleRate lowHz)
              (kEndOf samples.length sampleRate highHz)).card : ℝ))

/-- analyzeFrequencyBands: the five fixed band ranges
delta [0.5,4), theta [4,8), alpha [8,13), beta [13,30), gamma [30,100). -/
noncomputable def analyzeFrequencyBands (samples : List ℝ) (sampleRate : ℝ) : FrequencyBands where
  delta := calculateBandPower samples sampleRate 0.5 4
  theta := calculateBandPower samples sampleRate 4 8
  alpha := calculateBandPower samples sampleRate 8 13
  beta := calculateBandPower samples sampleRate 13 30
  gamma := calculateBandPower samples sampleRate 30 100

/-- The raw sum of the five band powers. -/
def bandTotalRaw (b : FrequencyBands) : ℝ :=
  b.delta + b.theta + b.alpha + b.beta + b.gamma

/-- total = (sum of band powers) || 1 : the JS falsy guard replaces an exactly
zero sum by 1. -/
noncomputable def bandTotal (b : FrequencyBands) : ℝ :=
  if bandTotalRaw b = 0 then 1 else bandTotalRaw b

/-- r.theta = bands.theta / total. -/
noncomputable def rTheta (b : FrequencyBands) : ℝ := b.theta / bandTotal b

/-- r.alpha = bands.alpha / total. -/
noncomputable def rAlpha (b : FrequencyBands) : ℝ := b.alpha / bandTotal b

/-- r.beta = bands.beta / total. -/
noncomputable def rBeta (b : FrequencyBands) : ℝ := b.beta / bandTotal b

/-- r.gamma = bands.gamma / total. -/
noncomputable def rGamma (b : FrequencyBands) : ℝ := b.gamma / bandTotal b

/-- focusedScore = bands.beta * 0.5 + bands.alpha * 0.2 + bands.gamma * 0.3. -/
def focusedScore (b : FrequencyBands) : ℝ :=
  b.beta * 0.5 + b.alpha * 0.2 + b.gamma * 0.3

/-- relaxedScore = bands.alpha * 0.6 + bands.theta * 0.3 - bands.beta * 0.2. -/
def relaxedScore (b : FrequencyBands) : ℝ :=
  b.alpha * 0.6 + b.theta * 0.3 - b.beta * 0.2

/-- anxiousScore = bands.beta * 0.6 - bands.alpha * 0.3 + bands.gamma * 0.2. -/
def anxiousScore (b : FrequencyBands) : ℝ :=
  b.beta * 0.6 - b.alpha * 0.3 + b.gamma * 0.2

/-- curiousScore = bands.gamma * 0.5 + bands.alpha * 0.3 + bands.theta * 0.2. -/
def curiousScore (b : FrequencyBands) : ℝ :=
  b.gamma * 0.5 + b.alpha * 0.3 + b.theta * 0.2

/-- max = Math.max(...scores) over the four Tier-B scores. -/
noncomputable def maxScore (b : FrequencyBands) : ℝ :=
  max (max (focusedScore b) (relaxedScore b)) (max (anxiousScore b) (curiousScore b))

/-- sum of the four Tier-B scores (scores.reduce((a, b) => a + b, 0)). -/
def scoreSum (b : FrequencyBands) : ℝ :=
  focusedScore b + relaxedScore b + anxiousScore b + curiousScore b

/-- labels[scores.indexOf(max)]: the first label, in the fixed order
[FOCUSED_HIGH, RELAXED_CALM, ANXIOUS_STRESSED, CURIOUS_INTERESTED], whose
score equals the maximum. -/
noncomputable def tierBLabel (b : FrequencyBands) : EmotionLabel :=
  if focusedScore b = maxScore b then .FOCUSED_HIGH
  else if relaxedScore b = maxScore b then .RELAXED_CALM
  else if anxiousScore b = maxScore b then .ANXIOUS_STRESSED
  else .CURIOUS_INTERESTED

/-- mapToEmotionalState from the source: Tier A dominance rules when the
relative beta+gamma fraction exceeds 0.6, otherwise the Tier B weighted
scoring fallback. -/
noncomputable def mapToEmotionalState (b : FrequencyBands) : EmotionState :=
  if 0.6 < rBeta b + rGamma b then
    if 0.55 < rGamma b ∧ rAlpha b < 0.2 then
      { primary := .ANXIOUS_STRESSED
        intensity := min 1 (rGamma b + 0.5 * rBeta b)
        confidence := min 1 ((rGamma b + rBeta b) / (rAlpha b + rTheta b + 1e-6)) }
    else if rGamma b ≤ rBeta b then
      { primary := .FOCUSED_HIGH
        intensity := min 1 (rBeta b + 0.3 * rGamma b)
        confidence := min 1 ((rBeta b + rGamma b) / (rAlpha b + rTheta b + 1e-6)) }
    else
      { primary := .CURIOUS_INTERESTED
        intensity := min 1 (rGamma b + 0.3 * rAlpha b)
        confidence := min 1 ((rGamma b + rAlpha b) / (rBeta b + rTheta b + 1e-6)) }
  else
    { primary := tierBLabel b
      intensity := min 1 (maxScore b)
      confidence := min 1 (maxScore b / (if scoreSum b = 0 then 1 else scoreSum b)) }

/-- The discrete Fourier coefficient at bin k of the Hann-windowed samples,
X_k = sum over n of windowed[n] * exp(-2 * PI * i * k * n / N), as named by the
specification. -/
noncomputable def dftCoeff (samples : List ℝ) (k : ℤ) : ℂ :=
  ∑ n ∈ Finset.range samples.length,
    (windowedSample samples n : ℂ) *
      Complex.exp (-(2 * Real.pi * k * n / samples.length : ℝ) * Complex.I)

/-- Band power as worded by the specification: with fPerBin = sampleRate / N,
kStart = max(1, floor(low / fPerBin)), kEnd = min(floor(high / fPerBin),
floor(N / 2)), the band value is 0 when kEnd <= kStart and otherwise
sqrt((1 / binCount) * sum over bins k in [kStart, kEnd] of the squared DFT
magnitude normalized by N^2). -/
noncomputable def bandPowerSpec (samples : List ℝ) (sampleRate lowHz highHz : ℝ) : ℝ :=
  let N := samples.length
  let kS : ℤ := max 1 ⌊lowHz / (sampleRate / N)⌋
  let kE : ℤ := min ⌊highHz / (sampleRate / N)⌋ ⌊(N : ℝ) / 2⌋
  if kE ≤ kS then 0
  else
    Real.sqrt ((1 / ((Finset.Icc kS kE).card : ℝ)) *
      ∑ k ∈ Finset.Icc kS kE, Complex.abs (dftCoeff samples k) ^ 2 / (N : ℝ) ^ 2)

/-- The all-zero band-power profile. -/
def zeroBands : FrequencyBands := ⟨0, 0, 0, 0, 0⟩

/-- The test window of C8: 512 samples of a pure 10 Hz sinusoid sampled at
256 Hz, samples[n] = sin(2 * PI * 10 * n / 256). -/
noncomputable def sine10Samples : List ℝ :=
  (List.range 512).map fun n : ℕ => Real.sin (2 * Real.pi * 10 * n / 256)

/-- Geometric exponential sum E(q) = sum over n < 512 of exp(2 * PI * i * q * n),
the building block of the DFT of the windowed sinusoid. -/
noncomputable def expSum (q : ℝ) : ℂ :=
  ∑ n ∈ Finset.range 512, Complex.exp ((2 * Real.pi * q * n : ℝ) * Complex.I)

/-! ### Helper lemmas -/

lemma calculateBandPower_nonneg (samples : List ℝ) (rate lo hi : ℝ) :
    0 ≤ calculateBandPower samples rate lo hi := by
  unfold calculateBandPower
  split_ifs <;> first | exact le_refl 0 | exact Real.sqrt_nonneg _

lemma map_zeroBands : mapToEmotionalState zeroBands = ⟨.FOCUSED_HIGH, 0, 0⟩ := by
  have htot : bandTotalRaw zeroBands = 0 := by norm_num [bandTotalRaw, zeroBands]
  have hT : bandTotal zeroBands = 1 := by rw [bandTotal, if_pos htot]
  have hrB : rBeta zeroBands = 0 := by norm_num [rBeta, hT, zeroBands]
  have hrG : rGamma zeroBands = 0 := by norm_num [rGamma, hT, zeroBands]
  have hf : focusedScore zeroBands = 0 := by norm_num [focusedScore, zeroBands]
  have hr : relaxedScore zeroBands = 0 := by norm_num [relaxedScore, zeroBands]
  have ha : anxiousScore zeroBands = 0 := by norm_num [anxiousScore, zeroBands]
  have hc : curiousScore zeroBands = 0 := by norm_num [curiousScore, zeroBands]
  have hM : maxScore zeroBands = 0 := by rw [maxScore, hf, hr, ha, hc]; norm_num
  have hS : scoreSum zeroBands = 0 := by rw [scoreSum, hf, hr, ha, hc]; norm_num
  rw [mapToEmotionalState, if_neg (by rw [hrB, hrG]; norm_num)]
  rw [tierBLabel, if_pos (by rw [hf, hM])]
  rw [hM, hS, if_pos rfl]
  norm_num

lemma dftCoeff_re (samples : List ℝ) (k : ℤ) :
    (dftCoeff samples k).re = dftRe samples k := by
  rw [dftCoeff, Complex.re_sum, dftRe]
  refine Finset.sum_congr rfl fun n hn => ?_
  rw [Complex.mul_re, Complex.ofReal_re, Complex.ofReal_im, ← Complex.ofReal_neg,
    Complex.exp_ofReal_mul_I_re, Real.cos_neg]
  ring

lemma dftCoeff_im (samples : List ℝ) (k : ℤ) :
    (dftCoeff samples k).im = dftIm samples k := by
  rw [dftCoeff, Complex.im_sum, dftIm]
  refine Finset.sum_congr rfl fun n hn => ?_
  rw [Complex.mul_im, Complex.ofReal_re, Complex.ofReal_im, ← Complex.ofReal_neg,
    Complex.exp_ofReal_mul_I_im, Real.sin_neg]
  ring

lemma abs_dftCoeff_sq (samples : List ℝ) (k : ℤ) :
    Complex.abs (dftCoeff samples k) ^ 2 / (samples.length : ℝ) ^ 2 =
      binMagSq samples k := by
  rw [Complex.sq_abs, Complex.normSq_apply, dftCoeff_re, dftCoeff_im, binMagSq]
  ring

lemma calculateBandPower_eq_spec (samples : List ℝ) (rate lo hi : ℝ)
    (h1 : samples.length ≠ 0) (h2 : 0 < rate) (h3 : lo < hi) :
    calculateBandPower samples rate lo hi = bandPowerSpec samples rate lo hi := by
  rw [calculateBandPower, if_neg (by push_neg; exact ⟨h1, h2, h3⟩)]
  simp only [bandPowerSpec, kStartOf, kEndOf]
  set kS : ℤ := 1 ⊔ ⌊lo / (rate / (samples.length : ℝ))⌋ with hkS
  set kE : ℤ := ⌊hi / (rate / (samples.length : ℝ))⌋ ⊓ ⌊(samples.length : ℝ) / 2⌋ with hkE
  split_ifs with h
  · rfl
  · congr 1
    have hle : kS ≤ kE := (not_le.mp h).le
    have hcard : 1 ≤ ((Finset.Icc kS kE).card : ℝ) := by
      have : 0 < (Finset.Icc kS kE).card :=
        Finset.card_pos.mpr ⟨kS, Finset.mem_Icc.mpr ⟨le_rfl, hle⟩⟩
      exact_mod_cast this
    rw [max_eq_right hcard,
      Finset.sum_congr rfl fun k hk => (abs_dftCoeff_sq samples k).symm,
      one_div, inv_mul_eq_div]

/-! ### Claim theorems -/

/-- C7: for every sample window and sample rate the band-power profile holds all
five bands and each value is non-negative (finiteness is inherent in the real
model of the double arithmetic). -/
theorem bandPowers_all_nonneg (samples : List ℝ) (rate : ℝ) :
    0 ≤ (analyzeFrequencyBands samples rate).delta ∧
    0 ≤ (analyzeFrequencyBands samples rate).theta ∧
    0 ≤ (analyzeFrequencyBands samples rate).alpha ∧
    0 ≤ (analyzeFrequencyBands samples rate).beta ∧
    0 ≤ (analyzeFrequencyBands samples rate).gamma := by
  refine ⟨?_, ?_, ?_, ?_, ?_⟩ <;> exact calculateBandPower_nonneg ..

/-- C6: an empty sample window or a non-positive sample rate yields the
all-zero profile, and classifying the all-zero profile still returns a
well-formed emotion state (the FOCUSED_HIGH label with intensity 0 and
confidence 0, both inside [0, 1]). -/
theorem degenerate_input_zero_profile (samples : List ℝ) (rate : ℝ)
    (h : samples = [] ∨ rate ≤ 0) :
    analyzeFrequencyBands samples rate = zeroBands ∧
      mapToEmotionalState zeroBands = ⟨.FOCUSED_HIGH, 0, 0⟩ := by
  have hz : ∀ lo hi : ℝ, calculateBandPower samples rate lo hi = 0 := by
    intro lo hi
    rcases h with h | h
    · rw [calculateBandPower, if_pos (Or.inl (by rw [h]; rfl))]
    · rw [calculateBandPower, if_pos (Or.inr (Or.inl h))]
  exact ⟨by simp [analyzeFrequencyBands, hz, zeroBands], map_zeroBands⟩

/-- C6 witness at samples = [], rate = 256. -/
theorem degenerate_input_zero_profile_witness :
    (([] : List ℝ) = [] ∨ (256 : ℝ) ≤ 0) ∧
      (analyzeFrequencyBands ([] : List ℝ) 256 = zeroBands ∧
        mapToEmotionalState zeroBands = ⟨.FOCUSED_HIGH, 0, 0⟩) :=
  ⟨Or.inl rfl, degenerate_input_zero_profile [] 256 (Or.inl rfl)⟩

/-- C9: a single-sample window with any positive sample rate produces the
all-zero profile, because for every band the bin range is empty: kEnd, capped
by floor(N / 2) = 0, never exceeds kStart >= 1, so the zero-return branch fires
before the (degenerate, division-by-zero) Hann window values are ever read. -/
theorem singleton_window_zero (x rate : ℝ) (h : 0 < rate) :
    analyzeFrequencyBands [x] rate = zeroBands ∧
      ∀ lowHz highHz : ℝ, kEndOf 1 rate highHz ≤ kStartOf 1 rate lowHz := by
  have hemp : ∀ lowHz highHz : ℝ, kEndOf 1 rate highHz ≤ kStartOf 1 rate lowHz := by
    intro lowHz highHz
    have h2 : (⌊((1 : ℕ) : ℝ) / 2⌋ : ℤ) = 0 := by norm_num
    calc kEndOf 1 rate highHz ≤ ⌊((1 : ℕ) : ℝ) / 2⌋ := min_le_right _ _
      _ = 0 := h2
      _ ≤ 1 := by norm_num
      _ ≤ kStartOf 1 rate lowHz := le_max_left _ _
  have hz : ∀ lo hi : ℝ, lo < hi → calculateBandPower [x] rate lo hi = 0 := by
    intro lo hi hlt
    rw [calculateBandPower,
      if_neg (by push_neg; exact ⟨by simp, h, lt_of_lt_of_le hlt le_rfl⟩)]
    exact if_pos (hemp lo hi)
  refine ⟨?_, hemp⟩
  have h1 : calculateBandPower [x] rate 0.5 4 = 0 := hz _ _ (by norm_num)
  have h2 : calculateBandPower [x] rate 4 8 = 0 := hz _ _ (by norm_num)
  have h3 : calculateBandPower [x] rate 8 13 = 0 := hz _ _ (by norm_num)
  have h4 : calculateBandPower [x] rate 13 30 = 0 := hz _ _ (by norm_num)
  have h5 : calculateBandPower [x] rate 30 100 = 0 := hz _ _ (by norm_num)
  simp [analyzeFrequencyBands, h1, h2, h3, h4, h5, zeroBands]

/-- C9 witness at x = 1, rate = 256. -/
theorem singleton_window_zero_witness :
    (0 : ℝ) < 256 ∧
      (analyzeFrequencyBands [(1 : ℝ)] 256 = zeroBands ∧
        ∀ lowHz highHz : ℝ, kEndOf 1 256 highHz ≤ kStartOf 1 256 lowHz) :=
  ⟨by norm_num, singleton_window_zero 1 256 (by norm_num)⟩

/-- C10: two profiles that agree on theta, alpha, beta and gamma and both take
the Tier B fallback path are classified identically: the fallback never reads
the delta band. -/
theorem tierB_ignores_delta (b1 b2 : FrequencyBands)
    (hth : b1.theta = b2.theta) (hal : b1.alpha = b2.alpha)
    (hbe : b1.beta = b2.beta) (hga : b1.gamma = b2.gamma)
    (h1 : rBeta b1 + rGamma b1 ≤ 0.6) (h2 : rBeta b2 + rGamma b2 ≤ 0.6) :
    mapToEmotionalState b1 = mapToEmotionalState b2 := by
  have hf : focusedScore b1 = focusedScore b2 := by
    rw [focusedScore, focusedScore, hal, hbe, hga]
  have hr : relaxedScore b1 = relaxedScore b2 := by
    rw [relaxedScore, relaxedScore, hal, hth, hbe]
  have ha : anxiousScore b1 = anxiousScore b2 := by
    rw [anxiousScore, anxiousScore, hal, hbe, hga]
  have hc : curiousScore b1 = curiousScore b2 := by
    rw [curiousScore, curiousScore, hal, hth, hga]
  rw [mapToEmotionalState, mapToEmotionalState,
    if_neg (not_lt.mpr h1), if_neg (not_lt.mpr h2)]
  rw [tierBLabel, tierBLabel, maxScore, maxScore, scoreSum, scoreSum,
    hf, hr, ha, hc]

/-- C10 witness: profiles differing only in delta, both on the fallback path. -/
theorem tierB_ignores_delta_witness :
    ((⟨5, 1, 1, 1, 1⟩ : FrequencyBands).theta = (⟨9, 1, 1, 1, 1⟩ : FrequencyBands).theta ∧
      rBeta (⟨5, 1, 1, 1, 1⟩ : FrequencyBands) + rGamma ⟨5, 1, 1, 1, 1⟩ ≤ 0.6 ∧
      rBeta (⟨9, 1, 1, 1, 1⟩ : FrequencyBands) + rGamma ⟨9, 1, 1, 1, 1⟩ ≤ 0.6) ∧
    mapToEmotionalState (⟨5, 1, 1, 1, 1⟩ : FrequencyBands) =
      mapToEmotionalState ⟨9, 1, 1, 1, 1⟩ := by
  have g1 : rBeta (⟨5, 1, 1, 1, 1⟩ : FrequencyBands) + rGamma ⟨5, 1, 1, 1, 1⟩ ≤ 0.6 := by
    norm_num [rBeta, rGamma, bandTotal, bandTotalRaw]
  have g2 : rBeta (⟨9, 1, 1, 1, 1⟩ : FrequencyBands) + rGamma ⟨9, 1, 1, 1, 1⟩ ≤ 0.6 := by
    norm_num [rBeta, rGamma, bandTotal, bandTotalRaw]
  exact ⟨⟨rfl, g1, g2⟩, tierB_ignores_delta _ _ rfl rfl rfl rfl g1 g2⟩

/-- C2: the Tier A dominance rules.  With total the five-band sum guarded to 1
when zero and r.band = power / total, whenever r.beta + r.gamma > 0.6 the
classifier returns ANXIOUS_STRESSED (if r.gamma > 0.55 and r.alpha < 0.2),
else FOCUSED_HIGH (if r.beta >= r.gamma), else CURIOUS_INTERESTED, each with
the claimed intensity and confidence formulas. -/
theorem tierA_rules (b : FrequencyBands)
    (hA : 0.6 < b.beta / bandTotal b + b.gamma / bandTotal b) :
    ((0.55 < b.gamma / bandTotal b ∧ b.alpha / bandTotal b < 0.2) →
      mapToEmotionalState b =
        { primary := .ANXIOUS_STRESSED
          intensity := min 1 (b.gamma / bandTotal b + 0.5 * (b.beta / bandTotal b))
          confidence := min 1 ((b.gamma / bandTotal b + b.beta / bandTotal b) /
            (b.alpha / bandTotal b + b.theta / bandTotal b + 1e-6)) }) ∧
    (¬(0.55 < b.gamma / bandTotal b ∧ b.alpha / bandTotal b < 0.2) →
      b.beta / bandTotal b ≥ b.gamma / bandTotal b →
      mapToEmotionalState b =
        { primary := .FOCUSED_HIGH
          intensity := min 1 (b.beta / bandTotal b + 0.3 * (b.gamma / bandTotal b))
          confidence := min 1 ((b.beta / bandTotal b + b.gamma / bandTotal b) /
            (b.alpha / bandTotal b + b.theta / bandTotal b + 1e-6)) }) ∧
    (¬(0.55 < b.gamma / bandTotal b ∧ b.alpha / bandTotal b < 0.2) →
      ¬(b.beta / bandTotal b ≥ b.gamma / bandTotal b) →
      mapToEmotionalState b =
        { primary := .CURIOUS_INTERESTED
          intensity := min 1 (b.gamma / bandTotal b + 0.3 * (b.alpha / bandTotal b))
          confidence := min 1 ((b.gamma / bandTotal b + b.alpha / bandTotal b) /
            (b.beta / bandTotal b + b.theta / bandTotal b + 1e-6)) }) := by
  refine ⟨fun h1 => ?_, fun h1 h2 => ?_, fun h1 h2 => ?_⟩ <;>
    · rw [mapToEmotionalState]
      simp only [rBeta, rGamma, rAlpha, rTheta]
      first
      | rw [if_pos hA, if_pos h1]
      | rw [if_pos hA, if_neg h1, if_pos h2]
      | rw [if_pos hA, if_neg h1, if_neg h2]

/-- C2 witness: a pure-gamma profile takes the ANXIOUS_STRESSED rule. -/
theorem tierA_rules_witness :
    ((0.6 : ℝ) <
        (⟨0, 0, 0, 0, 1⟩ : FrequencyBands).beta / bandTotal ⟨0, 0, 0, 0, 1⟩ +
          (⟨0, 0, 0, 0, 1⟩ : FrequencyBands).gamma / bandTotal ⟨0, 0, 0, 0, 1⟩ ∧
      0.55 < (⟨0, 0, 0, 0, 1⟩ : FrequencyBands).gamma / bandTotal ⟨0, 0, 0, 0, 1⟩ ∧
        (⟨0, 0, 0, 0, 1⟩ : FrequencyBands).alpha / bandTotal ⟨0, 0, 0, 0, 1⟩ < 0.2) ∧
    mapToEmotionalState (⟨0, 0, 0, 0, 1⟩ : FrequencyBands) =
      { primary := .ANXIOUS_STRESSED
        intensity := min 1
          ((⟨0, 0, 0, 0, 1⟩ : FrequencyBands).gamma / bandTotal ⟨0, 0, 0, 0, 1⟩ +
            0.5 * ((⟨0, 0, 0, 0, 1⟩ : FrequencyBands).beta / bandTotal ⟨0, 0, 0, 0, 1⟩))
        confidence := min 1
          (((⟨0, 0, 0, 0, 1⟩ : FrequencyBands).gamma / bandTotal ⟨0, 0, 0, 0, 1⟩ +
              (⟨0, 0, 0, 0, 1⟩ : FrequencyBands).beta / bandTotal ⟨0, 0, 0, 0, 1⟩) /
            ((⟨0, 0, 0, 0, 1⟩ : FrequencyBands).alpha / bandTotal ⟨0, 0, 0, 0, 1⟩ +
              (⟨0, 0, 0, 0, 1⟩ : FrequencyBands).theta / bandTotal ⟨0, 0, 0, 0, 1⟩ + 1e-6)) } := by
  have hT : bandTotal (⟨0, 0, 0, 0, 1⟩ : FrequencyBands) = 1 := by
    norm_num [bandTotal, bandTotalRaw]
  have hA : (0.6 : ℝ) <
      (⟨0, 0, 0, 0, 1⟩ : FrequencyBands).beta / bandTotal ⟨0, 0, 0, 0, 1⟩ +
        (⟨0, 0, 0, 0, 1⟩ : FrequencyBands).gamma / bandTotal ⟨0, 0, 0, 0, 1⟩ := by
    rw [hT]; norm_num
  have h1 : 0.55 < (⟨0, 0, 0, 0, 1⟩ : FrequencyBands).gamma / bandTotal ⟨0, 0, 0, 0, 1⟩ ∧
      (⟨0, 0, 0, 0, 1⟩ : FrequencyBands).alpha / bandTotal ⟨0, 0, 0, 0, 1⟩ < 0.2 := by
    rw [hT]; norm_num
  exact ⟨⟨hA, h1⟩, (tierA_rules _ hA).1 h1⟩

/-- C5: on the Tier B fallback path the confidence is min(1, maxScore / S)
with S the four-score sum guarded to 1 when that sum is zero or negative; on
the non-negative band powers of the data model a negative sum cannot occur,
so this coincides with the implemented exact-zero guard. -/
theorem tierB_confidence (b : FrequencyBands)
    (hd : 0 ≤ b.delta) (hth : 0 ≤ b.theta) (hal : 0 ≤ b.alpha)
    (hbe : 0 ≤ b.beta) (hga : 0 ≤ b.gamma)
    (hB : rBeta b + rGamma b ≤ 0.6) :
    (mapToEmotionalState b).confidence =
      min 1 (maxScore b / (if scoreSum b ≤ 0 then 1 else scoreSum b)) := by
  have hs : 0 ≤ scoreSum b := by
    rw [scoreSum, focusedScore, relaxedScore, anxiousScore, curiousScore]; linarith
  rw [mapToEmotionalState, if_neg (not_lt.mpr hB)]
  by_cases h0 : scoreSum b = 0
  · rw [if_pos h0, if_pos (le_of_eq h0)]
  · rw [if_neg h0, if_neg (by intro hle; exact h0 (le_antisymm hle hs))]

/-- C5 witness at the all-zero profile (zero score sum, guard to 1). -/
theorem tierB_confidence_witness :
    ((0 : ℝ) ≤ 0 ∧ rBeta zeroBands + rGamma zeroBands ≤ 0.6) ∧
      (mapToEmotionalState zeroBands).confidence =
        min 1 (maxScore zeroBands / (if scoreSum zeroBands ≤ 0 then 1 else scoreSum zeroBands)) := by
  have hB : rBeta zeroBands + rGamma zeroBands ≤ 0.6 := by
    norm_num [rBeta, rGamma, bandTotal, bandTotalRaw, zeroBands]
  exact ⟨⟨le_rfl, hB⟩,
    tierB_confidence zeroBands le_rfl le_rfl le_rfl le_rfl le_rfl hB⟩

/-- C3: when the Tier A guard fails the classifier returns the label of the
maximal Tier B score, ties resolved to the first label in the order
[FOCUSED_HIGH, RELAXED_CALM, ANXIOUS_STRESSED, CURIOUS_INTERESTED]; in
particular the all-zero profile yields FOCUSED_HIGH. -/
theorem tierB_argmax (b : FrequencyBands)
    (hB : rBeta b + rGamma b ≤ 0.6) :
    (mapToEmotionalState b).primary =
      (if relaxedScore b ≤ focusedScore b ∧ anxiousScore b ≤ focusedScore b ∧
          curiousScore b ≤ focusedScore b then .FOCUSED_HIGH
       else if anxiousScore b ≤ relaxedScore b ∧ curiousScore b ≤ relaxedScore b then
         .RELAXED_CALM
       else if curiousScore b ≤ anxiousScore b then .ANXIOUS_STRESSED
       else .CURIOUS_INTERESTED) ∧
    (mapToEmotionalState zeroBands).primary = .FOCUSED_HIGH := by
  refine ⟨?_, by rw [map_zeroBands]⟩
  rw [mapToEmotionalState, if_neg (not_lt.mpr hB)]
  show tierBLabel b = _
  set f := focusedScore b with hf
  set r := relaxedScore b with hr
  set a := anxiousScore b with ha
  set c := curiousScore b with hc
  by_cases h1 : r ≤ f ∧ a ≤ f ∧ c ≤ f
  · have hM : f = maxScore b :=
      le_antisymm (le_trans (le_max_left f r) (le_max_left _ _))
        (max_le (max_le le_rfl h1.1) (max_le h1.2.1 h1.2.2))
    rw [if_pos h1, tierBLabel, if_pos hM]
  · rw [if_neg h1]
    by_cases h2 : a ≤ r ∧ c ≤ r
    · have hfr : f < r := by
        by_contra hcon
        push_neg at hcon
        exact h1 ⟨hcon, h2.1.trans hcon, h2.2.trans hcon⟩
      have hM : r = maxScore b :=
        le_antisymm (le_trans (le_max_right f r) (le_max_left _ _))
          (max_le (max_le hfr.le le_rfl) (max_le h2.1 h2.2))
      rw [if_pos h2, tierBLabel, if_neg (by rw [← hM]; exact hfr.ne),
        if_pos hM]
    · rw [if_neg h2]
      push_neg at h1 h2
      by_cases h3 : c ≤ a
      · have har : r < a := by
          by_contra hcon
          push_neg at hcon
          have := h2 hcon
          linarith
        have haf : f < a := by
          by_contra hcon
          push_neg at hcon
          have := h1 (by linarith) (by linarith)
          linarith
        have hM : a = maxScore b :=
          le_antisymm (le_trans (le_max_left a c) (le_max_right _ _))
            (max_le (max_le haf.le har.le) (max_le le_rfl h3))
        rw [if_pos h3, tierBLabel, if_neg (by rw [← hM]; exact haf.ne),
          if_neg (by rw [← hM]; exact har.ne), if_pos hM]
      · push_neg at h3
        have hrc : r < c := by
          by_contra hcon
          push_neg at hcon
          have := h2 (by linarith)
          linarith
        have hfc : f < c := by
          by_contra hcon
          push_neg at hcon
          rcases le_or_lt r f with h4 | h4
          · have := h1 h4 (by linarith)
            linarith
          · have := h2 (by linarith)
            linarith
        have hM : c = maxScore b :=
          le_antisymm (le_trans (le_max_right a c) (le_max_right _ _))
            (max_le (max_le hfc.le hrc.le) (max_le h3.le le_rfl))
        rw [if_neg (not_le.mpr h3), tierBLabel, if_neg (by rw [← hM]; exact hfc.ne),
          if_neg (by rw [← hM]; exact hrc.ne), if_neg (by rw [← hM]; exact h3.ne)]

/-- C3 witness at a profile with dominant alpha (Tier B, RELAXED_CALM). -/
theorem tierB_argmax_witness :
    (rBeta (⟨0, 0, 1, 0, 0⟩ : FrequencyBands) + rGamma ⟨0, 0, 1, 0, 0⟩ ≤ 0.6) ∧
    ((mapToEmotionalState (⟨0, 0, 1, 0, 0⟩ : FrequencyBands)).primary =
      (if relaxedScore (⟨0, 0, 1, 0, 0⟩ : FrequencyBands) ≤ focusedScore ⟨0, 0, 1, 0, 0⟩ ∧
          anxiousScore (⟨0, 0, 1, 0, 0⟩ : FrequencyBands) ≤ focusedScore ⟨0, 0, 1, 0, 0⟩ ∧
          curiousScore (⟨0, 0, 1, 0, 0⟩ : FrequencyBands) ≤ focusedScore ⟨0, 0, 1, 0, 0⟩ then
        EmotionLabel.FOCUSED_HIGH
       else if anxiousScore (⟨0, 0, 1, 0, 0⟩ : FrequencyBands) ≤ relaxedScore ⟨0, 0, 1, 0, 0⟩ ∧
          curiousScore (⟨0, 0, 1, 0, 0⟩ : FrequencyBands) ≤ relaxedScore ⟨0, 0, 1, 0, 0⟩ then
        EmotionLabel.RELAXED_CALM
       else if curiousScore (⟨0, 0, 1, 0, 0⟩ : FrequencyBands) ≤ anxiousScore ⟨0, 0, 1, 0, 0⟩ then
        EmotionLabel.ANXIOUS_STRESSED
       else EmotionLabel.CURIOUS_INTERESTED) ∧
      (mapToEmotionalState zeroBands).primary = .FOCUSED_HIGH) := by
  have hB : rBeta (⟨0, 0, 1, 0, 0⟩ : FrequencyBands) + rGamma ⟨0, 0, 1, 0, 0⟩ ≤ 0.6 := by
    norm_num [rBeta, rGamma, bandTotal, bandTotalRaw]
  exact ⟨hB, tierB_argmax ⟨0, 0, 1, 0, 0⟩ hB⟩

/-- C4: on non-negative band powers (the data-model invariant) the classifier
output always satisfies intensity in [0, 1] and confidence in [0, 1], on both
the Tier A and Tier B paths. -/
theorem classify_output_bounds (b : FrequencyBands)
    (hd : 0 ≤ b.delta) (hth : 0 ≤ b.theta) (hal : 0 ≤ b.alpha)
    (hbe : 0 ≤ b.beta) (hga : 0 ≤ b.gamma) :
    0 ≤ (mapToEmotionalState b).intensity ∧ (mapToEmotionalState b).intensity ≤ 1 ∧
      0 ≤ (mapToEmotionalState b).confidence ∧ (mapToEmotionalState b).confidence ≤ 1 := by
  have hT : 0 < bandTotal b := by
    rw [bandTotal]
    split_ifs with h
    · norm_num
    · rw [bandTotalRaw] at h ⊢
      rcases lt_or_eq_of_le (by linarith : (0 : ℝ) ≤ b.delta + b.theta + b.alpha + b.beta + b.gamma) with h2 | h2
      · exact h2
      · exact absurd h2.symm h
  have hrT : 0 ≤ rTheta b := div_nonneg hth hT.le
  have hrA : 0 ≤ rAlpha b := div_nonneg hal hT.le
  have hrB : 0 ≤ rBeta b := div_nonneg hbe hT.le
  have hrG : 0 ≤ rGamma b := div_nonneg hga hT.le
  have hM : 0 ≤ maxScore b := by
    refine le_trans ?_ (le_trans (le_max_left (focusedScore b) (relaxedScore b))
      (le_max_left _ _))
    rw [focusedScore]
    have := mul_nonneg hbe (by norm_num : (0 : ℝ) ≤ 0.5)
    have := mul_nonneg hal (by norm_num : (0 : ℝ) ≤ 0.2)
    have := mul_nonneg hga (by norm_num : (0 : ℝ) ≤ 0.3)
    linarith
  have hden : (0 : ℝ) < rAlpha b + rTheta b + 1e-6 := by
    have : (0 : ℝ) < 1e-6 := by norm_num
    linarith
  have hden2 : (0 : ℝ) < rBeta b + rTheta b + 1e-6 := by
    have : (0 : ℝ) < 1e-6 := by norm_num
    linarith
  have hs : 0 ≤ scoreSum b := by
    rw [scoreSum, focusedScore, relaxedScore, anxiousScore, curiousScore]
    linarith
  rw [mapToEmotionalState]
  split_ifs with h1 h2 h3 h4
  · exact ⟨le_min (by norm_num) (by linarith [mul_nonneg (by norm_num : (0:ℝ) ≤ 0.5) hrB]),
      min_le_left _ _,
      le_min (by norm_num) (div_nonneg (by linarith) hden.le),
      min_le_left _ _⟩
  · exact ⟨le_min (by norm_num) (by linarith [mul_nonneg (by norm_num : (0:ℝ) ≤ 0.3) hrG]),
      min_le_left _ _,
      le_min (by norm_num) (div_nonneg (by linarith) hden.le),
      min_le_left _ _⟩
  · exact ⟨le_min (by norm_num) (by linarith [mul_nonneg (by norm_num : (0:ℝ) ≤ 0.3) hrA]),
      min_le_left _ _,
      le_min (by norm_num) (div_nonneg (by linarith) hden2.le),
      min_le_left _ _⟩
  · exact ⟨le_min (by norm_num) hM, min_le_left _ _,
      le_min (by norm_num) (div_nonneg hM (by norm_num)), min_le_left _ _⟩
  · exact ⟨le_min (by norm_num) hM, min_le_left _ _,
      le_min (by norm_num) (div_nonneg hM (lt_of_le_of_ne hs (Ne.symm h4)).le),
      min_le_left _ _⟩

/-- C4 witness at a concrete non-negative profile. -/
theorem classify_output_bounds_witness :
    ((0 : ℝ) ≤ 1 ∧ (0 : ℝ) ≤ 2 ∧ (0 : ℝ) ≤ 3 ∧ (0 : ℝ) ≤ 4 ∧ (0 : ℝ) ≤ 5) ∧
      (0 ≤ (mapToEmotionalState ⟨1, 2, 3, 4, 5⟩).intensity ∧
        (mapToEmotionalState (⟨1, 2, 3, 4, 5⟩ : FrequencyBands)).intensity ≤ 1 ∧
        0 ≤ (mapToEmotionalState (⟨1, 2, 3, 4, 5⟩ : FrequencyBands)).confidence ∧
        (mapToEmotionalState (⟨1, 2, 3, 4, 5⟩ : FrequencyBands)).confidence ≤ 1) :=
  ⟨⟨by norm_num, by norm_num, by norm_num, by norm_num, by norm_num⟩,
    classify_output_bounds ⟨1, 2, 3, 4, 5⟩ (by norm_num) (by norm_num) (by norm_num)
      (by norm_num) (by norm_num)⟩

/-- C1: for a non-empty window and positive sample rate every band of the
computed profile equals the specification formula: the square root of the
average over bins k in [kStart, kEnd] of the squared magnitude of the k-th
discrete Fourier coefficient of the Hann-windowed samples normalized by N^2,
and 0 when kEnd <= kStart. -/
theorem computeBandPowers_eq_spec (samples : List ℝ) (rate : ℝ)
    (hs : samples ≠ []) (hr : 0 < rate) :
    analyzeFrequencyBands samples rate =
      ⟨bandPowerSpec samples rate 0.5 4, bandPowerSpec samples rate 4 8,
        bandPowerSpec samples rate 8 13, bandPowerSpec samples rate 13 30,
        bandPowerSpec samples rate 30 100⟩ := by
  have hn : samples.length ≠ 0 := fun h => hs (List.length_eq_zero.mp h)
  rw [analyzeFrequencyBands,
    calculateBandPower_eq_spec samples rate 0.5 4 hn hr (by norm_num),
    calculateBandPower_eq_spec samples rate 4 8 hn hr (by norm_num),
    calculateBandPower_eq_spec samples rate 8 13 hn hr (by norm_num),
    calculateBandPower_eq_spec samples rate 13 30 hn hr (by norm_num),
    calculateBandPower_eq_spec samples rate 30 100 hn hr (by norm_num)]

/-- C1 witness at a two-sample window with rate 2. -/
theorem computeBandPowers_eq_spec_witness :
    (([1, 1] : List ℝ) ≠ [] ∧ (0 : ℝ) < 2) ∧
      analyzeFrequencyBands [(1 : ℝ), 1] 2 =
        ⟨bandPowerSpec [(1 : ℝ), 1] 2 0.5 4, bandPowerSpec [(1 : ℝ), 1] 2 4 8,
          bandPowerSpec [(1 : ℝ), 1] 2 8 13, bandPowerSpec [(1 : ℝ), 1] 2 13 30,
          bandPowerSpec [(1 : ℝ), 1] 2 30 100⟩ :=
  ⟨⟨by simp, by norm_num⟩, computeBandPowers_eq_spec [1, 1] 2 (by simp) (by norm_num)⟩

/-! ### Spectral analysis of the 10 Hz test sinusoid (claim C8) -/

lemma sine10_length : sine10Samples.length = 512 := by
  simp [sine10Samples]

lemma sine10_getD (n : ℕ) (hn : n < 512) :
    sine10Samples.getD n 0 = Real.sin (2 * Real.pi * 10 * n / 256) := by
  have hlen : n < sine10Samples.length := by rw [sine10_length]; exact hn
  rw [List.getD_eq_getElem sine10Samples 0 hlen]
  simp only [sine10Samples, List.getElem_map, List.getElem_range]

lemma expSum_zero : expSum 0 = 512 := by
  simp [expSum]

lemma expSum_ne_one_arg (m : ℤ) (hm : ¬(512 : ℤ) ∣ m) :
    Complex.exp (((2 * Real.pi * ((m : ℝ) / 512) : ℝ)) * Complex.I) ≠ 1 := by
  intro hcon
  rw [Complex.exp_eq_one_iff] at hcon
  obtain ⟨t, ht⟩ := hcon
  have ht2 : ((2 * Real.pi * ((m : ℝ) / 512) : ℝ) : ℂ) * Complex.I =
      (((t : ℝ) * (2 * Real.pi) : ℝ) : ℂ) * Complex.I := by
    rw [ht]; push_cast; ring
  have ht3 : (2 * Real.pi * ((m : ℝ) / 512) : ℝ) = (t : ℝ) * (2 * Real.pi) := by
    have := mul_right_cancel₀ Complex.I_ne_zero ht2
    exact_mod_cast this
  have hmt : (m : ℝ) = 512 * t := by
    have h2pi : (2 * Real.pi : ℝ) ≠ 0 := by positivity
    have hc : (2 * Real.pi) * (m : ℝ) = (2 * Real.pi) * ((512 : ℝ) * t) := by
      linear_combination 512 * ht3
    exact_mod_cast mul_left_cancel₀ h2pi hc
  exact hm ⟨t, by exact_mod_cast hmt⟩

lemma expSum_geom (q : ℝ) :
    expSum q = ∑ n ∈ Finset.range 512,
      Complex.exp ((2 * Real.pi * q : ℝ) * Complex.I) ^ n := by
  rw [expSum]
  refine Finset.sum_congr rfl fun n hn => ?_
  rw [← Complex.exp_nat_mul]
  congr 1
  push_cast
  ring

lemma expSum_int (m : ℤ) (hm : ¬(512 : ℤ) ∣ m) : expSum ((m : ℝ) / 512) = 0 := by
  rw [expSum_geom, geom_sum_eq (expSum_ne_one_arg m hm)]
  have h512 : Complex.exp (((2 * Real.pi * ((m : ℝ) / 512) : ℝ)) * Complex.I) ^ 512 = 1 := by
    rw [← Complex.exp_nat_mul]
    have harg : ((512 : ℕ) : ℂ) * (((2 * Real.pi * ((m : ℝ) / 512) : ℝ)) * Complex.I) =
        (m : ℂ) * (2 * (Real.pi : ℂ) * Complex.I) := by
      push_cast
      ring
    rw [harg, Complex.exp_int_mul_two_pi_mul_I]
  rw [h512, sub_self, zero_div]

lemma abs_exp_I_sub_one (θ : ℝ) :
    Complex.abs (Complex.exp ((θ : ℝ) * Complex.I) - 1) = 2 * |Real.sin (θ / 2)| := by
  have h1 : Complex.exp ((θ : ℝ) * Complex.I) - 1 =
      ((Real.cos θ - 1 : ℝ) : ℂ) + ((Real.sin θ : ℝ) : ℂ) * Complex.I := by
    rw [Complex.exp_mul_I, ← Complex.ofReal_cos, ← Complex.ofReal_sin]
    push_cast
    ring
  rw [h1, Complex.abs_add_mul_I]
  have h2 : (Real.cos θ - 1) ^ 2 + Real.sin θ ^ 2 = (2 * |Real.sin (θ / 2)|) ^ 2 := by
    have hs : Real.sin (θ / 2) ^ 2 = 1 / 2 - Real.cos (2 * (θ / 2)) / 2 :=
      Real.sin_sq_eq_half_sub _
    have harg : 2 * (θ / 2) = θ := by ring
    rw [harg] at hs
    rw [mul_pow, sq_abs, Real.sin_sq, hs]
    ring
  rw [h2, Real.sqrt_sq (by positivity)]

lemma two_mul_le_sin_pi (q : ℝ) (h0 : 0 ≤ q) (h1 : q ≤ 1 / 2) :
    2 * q ≤ Real.sin (Real.pi * q) := by
  have hle : Real.pi * q ≤ Real.pi / 2 := by nlinarith [Real.pi_pos]
  have := Real.mul_le_sin (x := Real.pi * q) (by positivity) hle
  calc 2 * q = 2 / Real.pi * (Real.pi * q) := by
        field_simp
        ring
    _ ≤ Real.sin (Real.pi * q) := this

lemma abs_sin_pi_eq (q : ℝ) (h1 : |q| ≤ 1) :
    |Real.sin (Real.pi * q)| = Real.sin (Real.pi * |q|) := by
  rcases abs_cases q with ⟨he, hq⟩ | ⟨he, hq⟩
  · rw [he]
    exact abs_of_nonneg (Real.sin_nonneg_of_nonneg_of_le_pi (by positivity)
      (by nlinarith [Real.pi_pos, he ▸ h1]))
  · rw [he, mul_neg, Real.sin_neg]
    exact abs_of_nonpos (Real.sin_nonpos_of_nonnpos_of_neg_pi_le
      (by nlinarith [Real.pi_pos])
      (by nlinarith [Real.pi_pos, neg_le_of_abs_le h1]))

lemma expSum_abs_bound (m : ℤ) (e : ℝ) (he : e = 1 ∨ e = -1) (d : ℝ) (hdpos : 0 < d)
    (hlow : d ≤ |(m : ℝ) / 512 + e / 511|) (hup : |(m : ℝ) / 512 + e / 511| ≤ 1 / 2) :
    Complex.abs (expSum ((m : ℝ) / 512 + e / 511)) ≤ (Real.pi / 511) / (2 * d) := by
  set q : ℝ := (m : ℝ) / 512 + e / 511 with hq
  have hq0 : q ≠ 0 := by
    intro h
    rw [h, abs_zero] at hlow
    linarith
  have hz1 : Complex.exp (((2 * Real.pi * q : ℝ)) * Complex.I) ≠ 1 := by
    intro hcon
    rw [Complex.exp_eq_one_iff] at hcon
    obtain ⟨t, ht⟩ := hcon
    have ht2 : ((2 * Real.pi * q : ℝ) : ℂ) * Complex.I =
        (((t : ℝ) * (2 * Real.pi) : ℝ) : ℂ) * Complex.I := by
      rw [ht]; push_cast; ring
    have ht3 : (2 * Real.pi * q : ℝ) = (t : ℝ) * (2 * Real.pi) :=
      Complex.ofReal_injective (mul_right_cancel₀ Complex.I_ne_zero ht2)
    have hqt : q = (t : ℝ) := by
      have h2pi : (2 * Real.pi : ℝ) ≠ 0 := by positivity
      have hc : (2 * Real.pi) * q = (2 * Real.pi) * (t : ℝ) := by linear_combination ht3
      exact mul_left_cancel₀ h2pi hc
    rcases eq_or_ne t 0 with h0 | h0
    · rw [h0] at hqt
      exact hq0 (by exact_mod_cast hqt)
    · have h1t : (1 : ℝ) ≤ |(t : ℝ)| := by
        have := Int.one_le_abs h0
        exact_mod_cast this
      rw [hqt] at hup
      linarith
  have hnum : Complex.abs (Complex.exp (((2 * Real.pi * q : ℝ)) * Complex.I) ^ 512 - 1) =
      2 * Real.sin (Real.pi / 511) := by
    have hsin511 : (0 : ℝ) < Real.sin (Real.pi / 511) :=
      Real.sin_pos_of_pos_of_lt_pi (by positivity)
        (by nlinarith [Real.pi_pos])
    have hre : Complex.exp (((2 * Real.pi * q : ℝ)) * Complex.I) ^ 512 =
        Complex.exp (((2 * Real.pi * (e / 511) : ℝ)) * Complex.I) := by
      rw [← Complex.exp_nat_mul]
      rcases he with rfl | rfl
      · have harg : ((512 : ℕ) : ℂ) * (((2 * Real.pi * q : ℝ) : ℂ) * Complex.I) =
            ((m + 1 : ℤ) : ℂ) * (2 * (Real.pi : ℂ) * Complex.I) +
              ((2 * Real.pi * ((1 : ℝ) / 511) : ℝ) : ℂ) * Complex.I := by
          rw [hq]; push_cast; ring
        rw [harg, Complex.exp_add, Complex.exp_int_mul_two_pi_mul_I, one_mul]
      · have harg : ((512 : ℕ) : ℂ) * (((2 * Real.pi * q : ℝ) : ℂ) * Complex.I) =
            ((m - 1 : ℤ) : ℂ) * (2 * (Real.pi : ℂ) * Complex.I) +
              ((2 * Real.pi * ((-1 : ℝ) / 511) : ℝ) : ℂ) * Complex.I := by
          rw [hq]; push_cast; ring
        rw [harg, Complex.exp_add, Complex.exp_int_mul_two_pi_mul_I, one_mul]
    rw [hre, abs_exp_I_sub_one]
    rcases he with rfl | rfl
    · rw [show (2 * Real.pi * ((1 : ℝ) / 511)) / 2 = Real.pi / 511 by ring,
        abs_of_pos hsin511]
    · rw [show (2 * Real.pi * ((-1 : ℝ) / 511)) / 2 = -(Real.pi / 511) by ring,
        Real.sin_neg, abs_neg, abs_of_pos hsin511]
  have hden : Complex.abs (Complex.exp (((2 * Real.pi * q : ℝ)) * Complex.I) - 1) =
      2 * |Real.sin (Real.pi * q)| := by
    have h := abs_exp_I_sub_one (2 * Real.pi * q)
    rw [show (2 * Real.pi * q) / 2 = Real.pi * q by ring] at h
    exact h
  have hden_lb : 4 * d ≤ 2 * |Real.sin (Real.pi * q)| := by
    have h1 : |Real.sin (Real.pi * q)| = Real.sin (Real.pi * |q|) :=
      abs_sin_pi_eq q (by linarith)
    have h2 : 2 * |q| ≤ Real.sin (Real.pi * |q|) :=
      two_mul_le_sin_pi |q| (abs_nonneg q) hup
    rw [h1]
    linarith
  have hnum_ub : 2 * Real.sin (Real.pi / 511) ≤ 2 * (Real.pi / 511) := by
    have := Real.sin_le (le_of_lt (by positivity : (0 : ℝ) < Real.pi / 511))
    linarith
  have hgeom : Complex.abs (expSum q) =
      Complex.abs (Complex.exp (((2 * Real.pi * q : ℝ)) * Complex.I) ^ 512 - 1) /
        Complex.abs (Complex.exp (((2 * Real.pi * q : ℝ)) * Complex.I) - 1) := by
    rw [expSum_geom, geom_sum_eq hz1, map_div₀]
  rw [hgeom, hnum, hden]
  calc 2 * Real.sin (Real.pi / 511) / (2 * |Real.sin (Real.pi * q)|)
      ≤ (2 * (Real.pi / 511)) / (4 * d) :=
        div_le_div₀ (by positivity) hnum_ub (by linarith) hden_lb
    _ = (Real.pi / 511) / (2 * d) := by ring

lemma ofReal_sin_mul_two_I (θ : ℝ) :
    ((Real.sin θ : ℝ) : ℂ) * (2 * Complex.I) =
      Complex.exp ((θ : ℝ) * Complex.I) - Complex.exp ((-θ : ℝ) * Complex.I) := by
  rw [Complex.ofReal_sin, Complex.sin]
  push_cast
  linear_combination (Complex.exp (-(θ : ℂ) * Complex.I) -
    Complex.exp ((θ : ℂ) * Complex.I)) * Complex.I_sq

lemma sin_mul_exp (θ ψ : ℝ) :
    ((Real.sin θ : ℝ) : ℂ) * Complex.exp ((-ψ : ℝ) * Complex.I) =
      (Complex.exp (((θ - ψ) : ℝ) * Complex.I) -
        Complex.exp (((-θ - ψ) : ℝ) * Complex.I)) / (2 * Complex.I) := by
  have h2I : (2 * Complex.I) ≠ 0 := by
    simp [Complex.I_ne_zero]
  rw [eq_div_iff h2I]
  have h := ofReal_sin_mul_two_I θ
  have e1 : Complex.exp (((θ - ψ) : ℝ) * Complex.I) =
      Complex.exp ((θ : ℝ) * Complex.I) * Complex.exp ((-ψ : ℝ) * Complex.I) := by
    rw [← Complex.exp_add]
    congr 1
    push_cast
    ring
  have e2 : Complex.exp (((-θ - ψ) : ℝ) * Complex.I) =
      Complex.exp ((-θ : ℝ) * Complex.I) * Complex.exp ((-ψ : ℝ) * Complex.I) := by
    rw [← Complex.exp_add]
    congr 1
    push_cast
    ring
  rw [e1, e2]
  linear_combination Complex.exp ((-ψ : ℝ) * Complex.I) * h

lemma sin_mul_exp_sum (c κ : ℝ) :
    (∑ n ∈ Finset.range 512, ((Real.sin (2 * Real.pi * c * n) : ℝ) : ℂ) *
        Complex.exp ((-(2 * Real.pi * κ * n) : ℝ) * Complex.I)) =
      (expSum (c - κ) - expSum (-c - κ)) / (2 * Complex.I) := by
  rw [expSum, expSum, ← Finset.sum_sub_distrib, Finset.sum_div]
  refine Finset.sum_congr rfl fun n hn => ?_
  have h := sin_mul_exp (2 * Real.pi * c * n) (2 * Real.pi * κ * n)
  rw [h, show ((2 * Real.pi * c * n - 2 * Real.pi * κ * n : ℝ)) =
      (2 * Real.pi * (c - κ) * n : ℝ) from by ring,
    show ((-(2 * Real.pi * c * n) - 2 * Real.pi * κ * n : ℝ)) =
      (2 * Real.pi * (-c - κ) * n : ℝ) from by ring]

lemma windowed_decomp (n : ℕ) (hn : n < 512) :
    windowedSample sine10Samples n =
      1 / 2 * Real.sin (2 * Real.pi * ((10 : ℝ) / 256) * n)
        - 1 / 4 * Real.sin (2 * Real.pi * ((10 : ℝ) / 256 + 1 / 511) * n)
        - 1 / 4 * Real.sin (2 * Real.pi * ((10 : ℝ) / 256 - 1 / 511) * n) := by
  rw [windowedSample, sine10_length, sine10_getD n hn, hannWeight]
  rw [show (2 * Real.pi * 10 * (n : ℝ) / 256) =
      2 * Real.pi * ((10 : ℝ) / 256) * n from by ring]
  rw [show (2 * Real.pi * (n : ℝ) / (((512 : ℕ) : ℝ) - 1)) =
      2 * Real.pi * ((1 : ℝ) / 511) * n from by push_cast; ring]
  rw [show (2 * Real.pi * ((10 : ℝ) / 256 + 1 / 511) * n) =
      2 * Real.pi * ((10 : ℝ) / 256) * n + 2 * Real.pi * ((1 : ℝ) / 511) * n from by ring]
  rw [show (2 * Real.pi * ((10 : ℝ) / 256 - 1 / 511) * n) =
      2 * Real.pi * ((10 : ℝ) / 256) * n - 2 * Real.pi * ((1 : ℝ) / 511) * n from by ring]
  rw [Real.sin_add, Real.sin_sub]
  ring

lemma dft_sine10 (k : ℤ) :
    dftCoeff sine10Samples k =
      (0.5 : ℂ) * ((expSum ((10 : ℝ) / 256 - (k : ℝ) / 512) -
          expSum (-((10 : ℝ) / 256) - (k : ℝ) / 512)) / (2 * Complex.I))
        - 0.25 * ((expSum ((10 : ℝ) / 256 + 1 / 511 - (k : ℝ) / 512) -
          expSum (-((10 : ℝ) / 256 + 1 / 511) - (k : ℝ) / 512)) / (2 * Complex.I))
        - 0.25 * ((expSum ((10 : ℝ) / 256 - 1 / 511 - (k : ℝ) / 512) -
          expSum (-((10 : ℝ) / 256 - 1 / 511) - (k : ℝ) / 512)) / (2 * Complex.I)) := by
  rw [dftCoeff, sine10_length]
  have hpt : ∀ n ∈ Finset.range 512,
      (windowedSample sine10Samples n : ℂ) *
        Complex.exp (-(2 * Real.pi * (k : ℝ) * n / ((512 : ℕ) : ℝ) : ℝ) * Complex.I) =
      (0.5 : ℂ) * (((Real.sin (2 * Real.pi * ((10 : ℝ) / 256) * n) : ℝ) : ℂ) *
          Complex.exp ((-(2 * Real.pi * ((k : ℝ) / 512) * n) : ℝ) * Complex.I))
        - 0.25 * (((Real.sin (2 * Real.pi * ((10 : ℝ) / 256 + 1 / 511) * n) : ℝ) : ℂ) *
          Complex.exp ((-(2 * Real.pi * ((k : ℝ) / 512) * n) : ℝ) * Complex.I))
        - 0.25 * (((Real.sin (2 * Real.pi * ((10 : ℝ) / 256 - 1 / 511) * n) : ℝ) : ℂ) *
          Complex.exp ((-(2 * Real.pi * ((k : ℝ) / 512) * n) : ℝ) * Complex.I)) := by
    intro n hn
    rw [windowed_decomp n (Finset.mem_range.mp hn)]
    have he : (-((2 * Real.pi * (k : ℝ) * (n : ℝ) / ((512 : ℕ) : ℝ) : ℝ) : ℂ)) * Complex.I =
        ((-(2 * Real.pi * ((k : ℝ) / 512) * (n : ℝ)) : ℝ) : ℂ) * Complex.I := by
      push_cast
      ring
    rw [he]
    push_cast
    ring
  rw [Finset.sum_congr rfl hpt, Finset.sum_sub_distrib, Finset.sum_sub_distrib,
    ← Finset.mul_sum, ← Finset.mul_sum, ← Finset.mul_sum,
    sin_mul_exp_sum ((10 : ℝ) / 256) ((k : ℝ) / 512),
    sin_mul_exp_sum ((10 : ℝ) / 256 + 1 / 511) ((k : ℝ) / 512),
    sin_mul_exp_sum ((10 : ℝ) / 256 - 1 / 511) ((k : ℝ) / 512)]

lemma not_dvd_512 (m : ℤ) (h0 : m ≠ 0) (habs : |m| < 512) : ¬(512 : ℤ) ∣ m := by
  intro hdvd
  have h1 : (512 : ℤ) ∣ |m| := (dvd_abs _ _).mpr hdvd
  have h2 : (512 : ℤ) ≤ |m| := Int.le_of_dvd (abs_pos.mpr h0) h1
  linarith

lemma expSum_phase_bound (m : ℤ) (e d : ℝ) (he : e = 1 ∨ e = -1) (hdpos : 0 < d)
    (hside : d ≤ (m : ℝ) / 512 + e / 511 ∨ (m : ℝ) / 512 + e / 511 ≤ -d)
    (hlo : -(1 / 2) ≤ (m : ℝ) / 512 + e / 511) (hhi : (m : ℝ) / 512 + e / 511 ≤ 1 / 2) :
    Complex.abs (expSum ((m : ℝ) / 512 + e / 511)) ≤ (Real.pi / 511) / (2 * d) := by
  apply expSum_abs_bound m e he d hdpos
  · rcases hside with h | h
    · exact le_trans h (le_abs_self _)
    · rw [abs_of_nonpos (by linarith)]
      linarith
  · rw [abs_le]
    exact ⟨hlo, hhi⟩

lemma abs_sub_le_abs_add (a b : ℂ) :
    Complex.abs (a - b) ≤ Complex.abs a + Complex.abs b := by
  rw [sub_eq_add_neg]
  exact le_trans (Complex.abs.add_le a (-b)) (by rw [Complex.abs.map_neg])

lemma theta_bin_bound (k : ℤ) (h1 : 8 ≤ k) (h2 : k ≤ 16) :
    Complex.abs (dftCoeff sine10Samples k) ≤ 32 * Real.pi / 383 := by
  have hk1 : (8 : ℝ) ≤ (k : ℝ) := by exact_mod_cast h1
  have hk2 : (k : ℝ) ≤ 16 := by exact_mod_cast h2
  rw [dft_sine10 k,
    show (10 : ℝ) / 256 - (k : ℝ) / 512 = ((20 - k : ℤ) : ℝ) / 512 from by push_cast; ring,
    show -((10 : ℝ) / 256) - (k : ℝ) / 512 = ((-(20 + k) : ℤ) : ℝ) / 512 from by
      push_cast; ring,
    show (10 : ℝ) / 256 + 1 / 511 - (k : ℝ) / 512 = ((20 - k : ℤ) : ℝ) / 512 + 1 / 511 from by
      push_cast; ring,
    show -((10 : ℝ) / 256 + 1 / 511) - (k : ℝ) / 512 =
        ((-(20 + k) : ℤ) : ℝ) / 512 + (-1) / 511 from by push_cast; ring,
    show (10 : ℝ) / 256 - 1 / 511 - (k : ℝ) / 512 =
        ((20 - k : ℤ) : ℝ) / 512 + (-1) / 511 from by push_cast; ring,
    show -((10 : ℝ) / 256 - 1 / 511) - (k : ℝ) / 512 =
        ((-(20 + k) : ℤ) : ℝ) / 512 + 1 / 511 from by push_cast; ring,
    expSum_int (20 - k) (not_dvd_512 _ (by omega) (abs_lt.mpr ⟨by omega, by omega⟩)),
    expSum_int (-(20 + k)) (not_dvd_512 _ (by omega) (abs_lt.mpr ⟨by omega, by omega⟩))]
  have hE3 := expSum_phase_bound (20 - k) 1 (1532 / 261632) (Or.inl rfl) (by norm_num)
    (Or.inl (by push_cast; linarith)) (by push_cast; linarith) (by push_cast; linarith)
  have hE4 := expSum_phase_bound (-(20 + k)) (-1) (1532 / 261632) (Or.inr rfl) (by norm_num)
    (Or.inr (by push_cast; linarith)) (by push_cast; linarith) (by push_cast; linarith)
  have hE5 := expSum_phase_bound (20 - k) (-1) (1532 / 261632) (Or.inr rfl) (by norm_num)
    (Or.inl (by push_cast; linarith)) (by push_cast; linarith) (by push_cast; linarith)
  have hE6 := expSum_phase_bound (-(20 + k)) 1 (1532 / 261632) (Or.inl rfl) (by norm_num)
    (Or.inr (by push_cast; linarith)) (by push_cast; linarith) (by push_cast; linarith)
  have hB : (Real.pi / 511) / (2 * (1532 / 261632 : ℝ)) = 64 * Real.pi / 383 := by ring
  rw [hB] at hE3 hE4 hE5 hE6
  set E3 := expSum (((20 - k : ℤ) : ℝ) / 512 + 1 / 511)
  set E4 := expSum (((-(20 + k) : ℤ) : ℝ) / 512 + (-1) / 511)
  set E5 := expSum (((20 - k : ℤ) : ℝ) / 512 + (-1) / 511)
  set E6 := expSum (((-(20 + k) : ℤ) : ℝ) / 512 + 1 / 511)
  have hform : (0.5 : ℂ) * ((0 - 0) / (2 * Complex.I)) - 0.25 * ((E3 - E4) / (2 * Complex.I))
      - 0.25 * ((E5 - E6) / (2 * Complex.I)) = -(E3 - E4 + (E5 - E6)) / (8 * Complex.I) := by
    ring
  rw [hform, map_div₀, Complex.abs.map_neg, map_mul, Complex.abs_ofNat, Complex.abs_I,
    mul_one]
  have htri : Complex.abs (E3 - E4 + (E5 - E6)) ≤
      Complex.abs E3 + Complex.abs E4 + (Complex.abs E5 + Complex.abs E6) :=
    le_trans (Complex.abs.add_le _ _)
      (add_le_add (abs_sub_le_abs_add E3 E4) (abs_sub_le_abs_add E5 E6))
  have hnum : Complex.abs (E3 - E4 + (E5 - E6)) ≤ 4 * (64 * Real.pi / 383) := by
    linarith
  calc Complex.abs (E3 - E4 + (E5 - E6)) / 8 ≤ 4 * (64 * Real.pi / 383) / 8 := by gcongr
    _ = 32 * Real.pi / 383 := by ring

lemma beta_bin_bound (k : ℤ) (h1 : 26 ≤ k) (h2 : k ≤ 60) :
    Complex.abs (dftCoeff sine10Samples k) ≤ 64 * Real.pi / 1277 := by
  have hk1 : (26 : ℝ) ≤ (k : ℝ) := by exact_mod_cast h1
  have hk2 : (k : ℝ) ≤ 60 := by exact_mod_cast h2
  rw [dft_sine10 k,
    show (10 : ℝ) / 256 - (k : ℝ) / 512 = ((20 - k : ℤ) : ℝ) / 512 from by push_cast; ring,
    show -((10 : ℝ) / 256) - (k : ℝ) / 512 = ((-(20 + k) : ℤ) : ℝ) / 512 from by
      push_cast; ring,
    show (10 : ℝ) / 256 + 1 / 511 - (k : ℝ) / 512 = ((20 - k : ℤ) : ℝ) / 512 + 1 / 511 from by
      push_cast; ring,
    show -((10 : ℝ) / 256 + 1 / 511) - (k : ℝ) / 512 =
        ((-(20 + k) : ℤ) : ℝ) / 512 + (-1) / 511 from by push_cast; ring,
    show (10 : ℝ) / 256 - 1 / 511 - (k : ℝ) / 512 =
        ((20 - k : ℤ) : ℝ) / 512 + (-1) / 511 from by push_cast; ring,
    show -((10 : ℝ) / 256 - 1 / 511) - (k : ℝ) / 512 =
        ((-(20 + k) : ℤ) : ℝ) / 512 + 1 / 511 from by push_cast; ring,
    expSum_int (20 - k) (not_dvd_512 _ (by omega) (abs_lt.mpr ⟨by omega, by omega⟩)),
    expSum_int (-(20 + k)) (not_dvd_512 _ (by omega) (abs_lt.mpr ⟨by omega, by omega⟩))]
  have hE3 := expSum_phase_bound (20 - k) 1 (2554 / 261632) (Or.inl rfl) (by norm_num)
    (Or.inr (by push_cast; linarith)) (by push_cast; linarith) (by push_cast; linarith)
  have hE4 := expSum_phase_bound (-(20 + k)) (-1) (2554 / 261632) (Or.inr rfl) (by norm_num)
    (Or.inr (by push_cast; linarith)) (by push_cast; linarith) (by push_cast; linarith)
  have hE5 := expSum_phase_bound (20 - k) (-1) (2554 / 261632) (Or.inr rfl) (by norm_num)
    (Or.inr (by push_cast; linarith)) (by push_cast; linarith) (by push_cast; linarith)
  have hE6 := expSum_phase_bound (-(20 + k)) 1 (2554 / 261632) (Or.inl rfl) (by norm_num)
    (Or.inr (by push_cast; linarith)) (by push_cast; linarith) (by push_cast; linarith)
  have hB : (Real.pi / 511) / (2 * (2554 / 261632 : ℝ)) = 128 * Real.pi / 1277 := by ring
  rw [hB] at hE3 hE4 hE5 hE6
  set E3 := expSum (((20 - k : ℤ) : ℝ) / 512 + 1 / 511)
  set E4 := expSum (((-(20 + k) : ℤ) : ℝ) / 512 + (-1) / 511)
  set E5 := expSum (((20 - k : ℤ) : ℝ) / 512 + (-1) / 511)
  set E6 := expSum (((-(20 + k) : ℤ) : ℝ) / 512 + 1 / 511)
  have hform : (0.5 : ℂ) * ((0 - 0) / (2 * Complex.I)) - 0.25 * ((E3 - E4) / (2 * Complex.I))
      - 0.25 * ((E5 - E6) / (2 * Complex.I)) = -(E3 - E4 + (E5 - E6)) / (8 * Complex.I) := by
    ring
  rw [hform, map_div₀, Complex.abs.map_neg, map_mul, Complex.abs_ofNat, Complex.abs_I,
    mul_one]
  have htri : Complex.abs (E3 - E4 + (E5 - E6)) ≤
      Complex.abs E3 + Complex.abs E4 + (Complex.abs E5 + Complex.abs E6) :=
    le_trans (Complex.abs.add_le _ _)
      (add_le_add (abs_sub_le_abs_add E3 E4) (abs_sub_le_abs_add E5 E6))
  calc Complex.abs (E3 - E4 + (E5 - E6)) / 8 ≤ 4 * (128 * Real.pi / 1277) / 8 := by
        have : Complex.abs (E3 - E4 + (E5 - E6)) ≤ 4 * (128 * Real.pi / 1277) := by linarith
        gcongr
    _ = 64 * Real.pi / 1277 := by ring

lemma z20_lower : (127 : ℝ) ≤ Complex.abs (dftCoeff sine10Samples 20) := by
  rw [dft_sine10 20,
    show (10 : ℝ) / 256 - ((20 : ℤ) : ℝ) / 512 = 0 from by push_cast; ring,
    show -((10 : ℝ) / 256) - ((20 : ℤ) : ℝ) / 512 = ((-40 : ℤ) : ℝ) / 512 from by
      push_cast; ring,
    show (10 : ℝ) / 256 + 1 / 511 - ((20 : ℤ) : ℝ) / 512 =
        ((0 : ℤ) : ℝ) / 512 + 1 / 511 from by push_cast; ring,
    show -((10 : ℝ) / 256 + 1 / 511) - ((20 : ℤ) : ℝ) / 512 =
        ((-40 : ℤ) : ℝ) / 512 + (-1) / 511 from by push_cast; ring,
    show (10 : ℝ) / 256 - 1 / 511 - ((20 : ℤ) : ℝ) / 512 =
        ((0 : ℤ) : ℝ) / 512 + (-1) / 511 from by push_cast; ring,
    show -((10 : ℝ) / 256 - 1 / 511) - ((20 : ℤ) : ℝ) / 512 =
        ((-40 : ℤ) : ℝ) / 512 + 1 / 511 from by push_cast; ring,
    expSum_zero,
    expSum_int (-40) (not_dvd_512 _ (by omega) (abs_lt.mpr ⟨by omega, by omega⟩))]
  have hE3 := expSum_phase_bound 0 1 (1 / 511) (Or.inl rfl) (by norm_num)
    (Or.inl (by norm_num)) (by norm_num) (by norm_num)
  have hE4 := expSum_phase_bound (-40) (-1) (19928 / 261632) (Or.inr rfl) (by norm_num)
    (Or.inr (by norm_num)) (by norm_num) (by norm_num)
  have hE5 := expSum_phase_bound 0 (-1) (1 / 511) (Or.inr rfl) (by norm_num)
    (Or.inr (by norm_num)) (by norm_num) (by norm_num)
  have hE6 := expSum_phase_bound (-40) 1 (19928 / 261632) (Or.inl rfl) (by norm_num)
    (Or.inr (by norm_num)) (by norm_num) (by norm_num)
  have hB1 : (Real.pi / 511) / (2 * (1 / 511 : ℝ)) = Real.pi / 2 := by ring
  have hB2 : (Real.pi / 511) / (2 * (19928 / 261632 : ℝ)) = 32 * Real.pi / 2491 := by ring
  rw [hB1] at hE3 hE5
  rw [hB2] at hE4 hE6
  set E3 := expSum (((0 : ℤ) : ℝ) / 512 + 1 / 511)
  set E4 := expSum (((-40 : ℤ) : ℝ) / 512 + (-1) / 511)
  set E5 := expSum (((0 : ℤ) : ℝ) / 512 + (-1) / 511)
  set E6 := expSum (((-40 : ℤ) : ℝ) / 512 + 1 / 511)
  have hform : (0.5 : ℂ) * ((512 - 0) / (2 * Complex.I)) - 0.25 * ((E3 - E4) / (2 * Complex.I))
      - 0.25 * ((E5 - E6) / (2 * Complex.I)) =
        (128 : ℂ) / Complex.I - (E3 - E4 + (E5 - E6)) / (8 * Complex.I) := by
    ring
  rw [hform]
  have hmain : Complex.abs ((128 : ℂ) / Complex.I) = 128 := by
    rw [map_div₀, Complex.abs_ofNat, Complex.abs_I, div_one]
  have htri : Complex.abs ((128 : ℂ) / Complex.I) -
      Complex.abs ((E3 - E4 + (E5 - E6)) / (8 * Complex.I)) ≤
      Complex.abs ((128 : ℂ) / Complex.I - (E3 - E4 + (E5 - E6)) / (8 * Complex.I)) := by
    have := norm_sub_norm_le ((128 : ℂ) / Complex.I) ((E3 - E4 + (E5 - E6)) / (8 * Complex.I))
    simpa [Complex.norm_eq_abs] using this
  have hrest : Complex.abs ((E3 - E4 + (E5 - E6)) / (8 * Complex.I)) ≤ 1 := by
    rw [map_div₀, map_mul, Complex.abs_ofNat, Complex.abs_I, mul_one]
    have hnum : Complex.abs (E3 - E4 + (E5 - E6)) ≤
        Real.pi / 2 + 32 * Real.pi / 2491 + (Real.pi / 2 + 32 * Real.pi / 2491) := by
      have := le_trans (Complex.abs.add_le (E3 - E4) (E5 - E6))
        (add_le_add (abs_sub_le_abs_add E3 E4) (abs_sub_le_abs_add E5 E6))
      linarith
    have hpi : Real.pi < 3.15 := Real.pi_lt_d2
    rw [div_le_one (by norm_num)]
    linarith
  rw [hmain] at htri
  linarith

lemma kStartOf_512 (lo : ℝ) (m : ℤ) (h : lo / (256 / ((512 : ℕ) : ℝ)) = (m : ℝ))
    (hm : 1 ≤ m) : kStartOf 512 256 lo = m := by
  rw [kStartOf, h, Int.floor_intCast]
  exact max_eq_right hm

lemma kEndOf_512 (hi : ℝ) (m : ℤ) (h : hi / (256 / ((512 : ℕ) : ℝ)) = (m : ℝ))
    (hm : m ≤ 256) : kEndOf 512 256 hi = m := by
  rw [kEndOf, h, Int.floor_intCast,
    show ((512 : ℕ) : ℝ) / 2 = ((256 : ℤ) : ℝ) from by push_cast; norm_num,
    Int.floor_intCast]
  exact min_eq_left hm

lemma theta_eval : (analyzeFrequencyBands sine10Samples 256).theta =
    Real.sqrt ((∑ k ∈ Finset.Icc (8 : ℤ) 16, binMagSq sine10Samples k) / 9) := by
  have hkS : kStartOf 512 256 4 = 8 := kStartOf_512 4 8 (by push_cast; norm_num) (by norm_num)
  have hkE : kEndOf 512 256 8 = 16 := kEndOf_512 8 16 (by push_cast; norm_num) (by norm_num)
  simp only [analyzeFrequencyBands]
  rw [calculateBandPower]
  simp only [sine10_length]
  rw [hkS, hkE, if_neg (by push_neg; exact ⟨by norm_num, by norm_num, by norm_num⟩),
    if_neg (by norm_num)]
  congr 1
  rw [show ((Finset.Icc (8 : ℤ) 16).card : ℝ) = 9 from by simp [Int.card_Icc],
    max_eq_right (by norm_num : (1 : ℝ) ≤ 9)]

lemma alpha_eval : (analyzeFrequencyBands sine10Samples 256).alpha =
    Real.sqrt ((∑ k ∈ Finset.Icc (16 : ℤ) 26, binMagSq sine10Samples k) / 11) := by
  have hkS : kStartOf 512 256 8 = 16 := kStartOf_512 8 16 (by push_cast; norm_num) (by norm_num)
  have hkE : kEndOf 512 256 13 = 26 := kEndOf_512 13 26 (by push_cast; norm_num) (by norm_num)
  simp only [analyzeFrequencyBands]
  rw [calculateBandPower]
  simp only [sine10_length]
  rw [hkS, hkE, if_neg (by push_neg; exact ⟨by norm_num, by norm_num, by norm_num⟩),
    if_neg (by norm_num)]
  congr 1
  rw [show ((Finset.Icc (16 : ℤ) 26).card : ℝ) = 11 from by simp [Int.card_Icc],
    max_eq_right (by norm_num : (1 : ℝ) ≤ 11)]

lemma beta_eval : (analyzeFrequencyBands sine10Samples 256).beta =
    Real.sqrt ((∑ k ∈ Finset.Icc (26 : ℤ) 60, binMagSq sine10Samples k) / 35) := by
  have hkS : kStartOf 512 256 13 = 26 := kStartOf_512 13 26 (by push_cast; norm_num) (by norm_num)
  have hkE : kEndOf 512 256 30 = 60 := kEndOf_512 30 60 (by push_cast; norm_num) (by norm_num)
  simp only [analyzeFrequencyBands]
  rw [calculateBandPower]
  simp only [sine10_length]
  rw [hkS, hkE, if_neg (by push_neg; exact ⟨by norm_num, by norm_num, by norm_num⟩),
    if_neg (by norm_num)]
  congr 1
  rw [show ((Finset.Icc (26 : ℤ) 60).card : ℝ) = 35 from by simp [Int.card_Icc],
    max_eq_right (by norm_num : (1 : ℝ) ≤ 35)]

lemma binMagSq_sine10 (k : ℤ) :
    binMagSq sine10Samples k = Complex.abs (dftCoeff sine10Samples k) ^ 2 / 262144 := by
  rw [← abs_dftCoeff_sq, sine10_length]
  norm_num

lemma binMagSq_nonneg (samples : List ℝ) (k : ℤ) : 0 ≤ binMagSq samples k := by
  rw [binMagSq]
  exact div_nonneg (add_nonneg (mul_self_nonneg _) (mul_self_nonneg _)) (mul_self_nonneg _)

/-- C8: for the 512-sample pure 10 Hz sinusoid at 256 Hz sample rate, the
computed alpha band power strictly exceeds both the beta and the theta band
powers. -/
theorem sine10_alpha_dominates :
    (analyzeFrequencyBands sine10Samples 256).beta <
        (analyzeFrequencyBands sine10Samples 256).alpha ∧
      (analyzeFrequencyBands sine10Samples 256).theta <
        (analyzeFrequencyBands sine10Samples 256).alpha := by
  have hpi : Real.pi < 3.15 := Real.pi_lt_d2
  have hpipos := Real.pi_pos
  have halpha : Real.sqrt (16129 / (262144 * 11)) ≤
      (analyzeFrequencyBands sine10Samples 256).alpha := by
    rw [alpha_eval]
    apply Real.sqrt_le_sqrt
    have h20 : (16129 : ℝ) / 262144 ≤ binMagSq sine10Samples 20 := by
      rw [binMagSq_sine10]
      have hsq : (127 : ℝ) ^ 2 ≤ Complex.abs (dftCoeff sine10Samples 20) ^ 2 :=
        pow_le_pow_left₀ (by norm_num) z20_lower 2
      calc (16129 : ℝ) / 262144 = 127 ^ 2 / 262144 := by norm_num
        _ ≤ Complex.abs (dftCoeff sine10Samples 20) ^ 2 / 262144 := by gcongr
    have hsum : (16129 : ℝ) / 262144 ≤
        ∑ k ∈ Finset.Icc (16 : ℤ) 26, binMagSq sine10Samples k :=
      le_trans h20 (Finset.single_le_sum (fun i _ => binMagSq_nonneg sine10Samples i)
        (Finset.mem_Icc.mpr ⟨by norm_num, by norm_num⟩))
    calc (16129 : ℝ) / (262144 * 11) = (16129 / 262144) / 11 := by ring
      _ ≤ (∑ k ∈ Finset.Icc (16 : ℤ) 26, binMagSq sine10Samples k) / 11 := by gcongr
  have htheta : (analyzeFrequencyBands sine10Samples 256).theta ≤
      Real.sqrt ((32 * Real.pi / 383) ^ 2 / 262144) := by
    rw [theta_eval]
    apply Real.sqrt_le_sqrt
    have hsum : ∑ k ∈ Finset.Icc (8 : ℤ) 16, binMagSq sine10Samples k ≤
        9 * ((32 * Real.pi / 383) ^ 2 / 262144) := by
      have hbound : ∀ k ∈ Finset.Icc (8 : ℤ) 16,
          binMagSq sine10Samples k ≤ (32 * Real.pi / 383) ^ 2 / 262144 := by
        intro k hk
        obtain ⟨hk1, hk2⟩ := Finset.mem_Icc.mp hk
        rw [binMagSq_sine10]
        have habs : Complex.abs (dftCoeff sine10Samples k) ^ 2 ≤ (32 * Real.pi / 383) ^ 2 :=
          pow_le_pow_left₀ (AbsoluteValue.nonneg _ _) (theta_bin_bound k hk1 hk2) 2
        gcongr
      calc ∑ k ∈ Finset.Icc (8 : ℤ) 16, binMagSq sine10Samples k
          ≤ ∑ _k ∈ Finset.Icc (8 : ℤ) 16, (32 * Real.pi / 383) ^ 2 / 262144 :=
            Finset.sum_le_sum hbound
        _ = 9 * ((32 * Real.pi / 383) ^ 2 / 262144) := by
            rw [Finset.sum_const, nsmul_eq_mul,
              show (((Finset.Icc (8 : ℤ) 16).card : ℕ) : ℝ) = 9 from by simp [Int.card_Icc]]
    calc (∑ k ∈ Finset.Icc (8 : ℤ) 16, binMagSq sine10Samples k) / 9
        ≤ 9 * ((32 * Real.pi / 383) ^ 2 / 262144) / 9 := by gcongr
      _ = (32 * Real.pi / 383) ^ 2 / 262144 := by ring
  have hbeta : (analyzeFrequencyBands sine10Samples 256).beta ≤
      Real.sqrt ((64 * Real.pi / 1277) ^ 2 / 262144) := by
    rw [beta_eval]
    apply Real.sqrt_le_sqrt
    have hsum : ∑ k ∈ Finset.Icc (26 : ℤ) 60, binMagSq sine10Samples k ≤
        35 * ((64 * Real.pi / 1277) ^ 2 / 262144) := by
      have hbound : ∀ k ∈ Finset.Icc (26 : ℤ) 60,
          binMagSq sine10Samples k ≤ (64 * Real.pi / 1277) ^ 2 / 262144 := by
        intro k hk
        obtain ⟨hk1, hk2⟩ := Finset.mem_Icc.mp hk
        rw [binMagSq_sine10]
        have habs : Complex.abs (dftCoeff sine10Samples k) ^ 2 ≤ (64 * Real.pi / 1277) ^ 2 :=
          pow_le_pow_left₀ (AbsoluteValue.nonneg _ _) (beta_bin_bound k hk1 hk2) 2
        gcongr
      calc ∑ k ∈ Finset.Icc (26 : ℤ) 60, binMagSq sine10Samples k
          ≤ ∑ _k ∈ Finset.Icc (26 : ℤ) 60, (64 * Real.pi / 1277) ^ 2 / 262144 :=
            Finset.sum_le_sum hbound
        _ = 35 * ((64 * Real.pi / 1277) ^ 2 / 262144) := by
            rw [Finset.sum_const, nsmul_eq_mul,
              show (((Finset.Icc (26 : ℤ) 60).card : ℕ) : ℝ) = 35 from by simp [Int.card_Icc]]
    calc (∑ k ∈ Finset.Icc (26 : ℤ) 60, binMagSq sine10Samples k) / 35
        ≤ 35 * ((64 * Real.pi / 1277) ^ 2 / 262144) / 35 := by gcongr
      _ = (64 * Real.pi / 1277) ^ 2 / 262144 := by ring
  have hth_small : (32 * Real.pi / 383) ^ 2 < 1 := by nlinarith
  have hbe_small : (64 * Real.pi / 1277) ^ 2 < 1 := by nlinarith
  have hcomp_th : Real.sqrt ((32 * Real.pi / 383) ^ 2 / 262144) <
      Real.sqrt (16129 / (262144 * 11)) := by
    apply Real.sqrt_lt_sqrt (by positivity)
    calc (32 * Real.pi / 383) ^ 2 / 262144 < 1 / 262144 := by gcongr
      _ ≤ 16129 / (262144 * 11) := by norm_num
  have hcomp_be : Real.sqrt ((64 * Real.pi / 1277) ^ 2 / 262144) <
      Real.sqrt (16129 / (262144 * 11)) := by
    apply Real.sqrt_lt_sqrt (by positivity)
    calc (64 * Real.pi / 1277) ^ 2 / 262144 < 1 / 262144 := by gcongr
      _ ≤ 16129 / (262144 * 11) := by norm_num
  exact ⟨lt_of_le_of_lt hbeta (lt_of_lt_of_le hcomp_be halpha),
    lt_of_le_of_lt htheta (lt_of_lt_of_le hcomp_th halpha)⟩

end EEG
